import Mathlib

/-!
Verification of the Tradle leaderboard rating engine.

This file is a shallow embedding of the Python sources
`backend/glicko2.py`, `backend/ratings.py` and `backend/recalculate.py`
into Lean, together with theorems settling the specification claims.

Modelling conventions:
* Python floats are modelled by real numbers `ℝ`; `float('inf')` values
  (the variance of an empty opponent list) are modelled by `Option ℝ`
  with `none` standing for infinity.
* The two `while` loops of `update_volatility` are modelled by
  fuel-indexed recursion: `none` means the loop has not exited within
  the given number of iterations (the Python loop would still be
  running).  The source has no iteration ceiling of its own.
* Tenants and players are natural numbers, raw scores are integers,
  rounds are naturals, timestamps are reals (seconds).
* Database rows become total functions to `Option`; SQLite's
  `INSERT OR REPLACE` becomes pointwise function update.
-/

namespace Tradle

open Real Classical

/-! ## glicko2.py -/

/-- Constant `SCALE = 173.7178`, the Glicko-2 scaling factor. -/
noncomputable def SCALE : ℝ := 173.7178

/-- Constant `TAU = 0.5`, the system constant. -/
noncomputable def TAU : ℝ := 0.5

/-- Constant `EPSILON = 0.000001`, convergence tolerance of the volatility iteration. -/
noncomputable def EPSILON : ℝ := 0.000001

/-- Source `rating_to_glicko2(rating, rd)`: convert from Glicko scale to Glicko-2 scale. -/
noncomputable def rating_to_glicko2 (rating rd : ℝ) : ℝ × ℝ :=
  ((rating - 1500) / SCALE, rd / SCALE)

/-- Source `glicko2_to_rating(mu, phi)`: convert from Glicko-2 scale to Glicko scale. -/
noncomputable def glicko2_to_rating (mu phi : ℝ) : ℝ × ℝ :=
  (mu * SCALE + 1500, phi * SCALE)

/-- Function `g(phi) = 1 / sqrt(1 + 3 phi^2 / pi^2)`. -/
noncomputable def g (phi : ℝ) : ℝ :=
  1 / Real.sqrt (1 + 3 * phi * phi / (Real.pi * Real.pi))

/-- Function `expected_score(mu, mu_j, phi_j) = 1 / (1 + exp(-g(phi_j) (mu - mu_j)))`. -/
noncomputable def expected_score (mu mu_j phi_j : ℝ) : ℝ :=
  1 / (1 + Real.exp (-(g phi_j) * (mu - mu_j)))

/-- Source `compute_variance(mu, opponents)`.  The Python function returns
`float('inf')` for an empty opponent list (and when the accumulated total
is not positive); infinity is modelled as `none`. -/
noncomputable def compute_variance (mu : ℝ) (opponents : List (ℝ × ℝ × ℝ)) :
    Option ℝ :=
  match opponents with
  | [] => none
  | _ :: _ =>
    let total :=
      (opponents.map (fun o =>
        g o.2.1 * g o.2.1 * expected_score mu o.1 o.2.1 *
          (1 - expected_score mu o.1 o.2.1))).sum
    if 0 < total then some (1 / total) else none

/-- Source `compute_delta(mu, opponents, v) = v * Σ g(phi_j) (s_j - E)` (0 for no opponents). -/
noncomputable def compute_delta (mu : ℝ) (opponents : List (ℝ × ℝ × ℝ)) (v : ℝ) : ℝ :=
  match opponents with
  | [] => 0
  | _ :: _ =>
    v * (opponents.map (fun o =>
      g o.2.1 * (o.2.2 - expected_score mu o.1 o.2.1))).sum

/-- The objective function `f` defined inside `update_volatility`:
`f(x) = e^x (delta_sq - phi_sq - v - e^x) / (2 (phi_sq + v + e^x)^2) - (x - a)/(TAU*TAU)`. -/
noncomputable def vol_f (a delta_sq phi_sq v x : ℝ) : ℝ :=
  Real.exp x * (delta_sq - phi_sq - v - Real.exp x) /
      (2 * (phi_sq + v + Real.exp x) ^ 2) -
    (x - a) / (TAU * TAU)

/-- The bracket-search loop of `update_volatility`:
`k = 1; while f(a - k*TAU) < 0: k += 1; B = a - k*TAU`.
The loop exits at the first `k` with `f(a - k*TAU) >= 0`.  `fuel` bounds the
number of inspected values of `k`; `none` means the loop is still running. -/
noncomputable def bracket_search (F : ℝ → ℝ) (a : ℝ) : ℕ → ℕ → Option ℝ
  | 0, _ => none
  | fuel + 1, k =>
    if F (a - k * TAU) < 0 then bracket_search F a fuel (k + 1)
    else some (a - k * TAU)

/-- The Illinois iteration of `update_volatility`:
`while |B - A| > EPSILON: C = A + (A-B) f_A/(f_B - f_A); ...; return exp(A/2)`.
State is `(A, B, f_A, f_B)`; `fuel` bounds the iteration count and `none`
means the loop has not exited. -/
noncomputable def illinois (F : ℝ → ℝ) : ℕ → ℝ → ℝ → ℝ → ℝ → Option ℝ
  | 0, _, _, _, _ => none
  | fuel + 1, A, B, fA, fB =>
    if |B - A| ≤ EPSILON then some (Real.exp (A / 2))
    else
      let C := A + (A - B) * fA / (fB - fA)
      let fC := F C
      if fC * fB ≤ 0 then illinois F fuel B C fB fC
      else illinois F fuel A C (fA / 2) fC

/-- Source `update_volatility(sigma, phi, v, delta)`: Step 5 of Glicko-2 via the
Illinois algorithm.  `fuel` bounds both source loops (which are unbounded
in the source); `none` means one of them has not terminated. -/
noncomputable def update_volatility (fuel : ℕ) (sigma phi v delta : ℝ) : Option ℝ :=
  let a := Real.log (sigma * sigma)
  let delta_sq := delta * delta
  let phi_sq := phi * phi
  let F := vol_f a delta_sq phi_sq v
  let B? : Option ℝ :=
    if delta_sq > phi_sq + v then some (Real.log (delta_sq - phi_sq - v))
    else bracket_search F a fuel 1
  B?.bind fun B => illinois F fuel a B (F a) (F B)

/-- Source `update_rating(rating, rd, volatility, opponents)`: the main Glicko-2
update.  Opponents are `(opponent_rating, opponent_rd, score)` triples.
`none` propagates non-termination of the volatility solver. -/
noncomputable def update_rating (fuel : ℕ) (rating rd volatility : ℝ)
    (opponents : List (ℝ × ℝ × ℝ)) : Option (ℝ × ℝ × ℝ) :=
  let mu := (rating_to_glicko2 rating rd).1
  let phi := (rating_to_glicko2 rating rd).2
  let opponents_g2 := opponents.map (fun o =>
    ((rating_to_glicko2 o.1 o.2.1).1, (rating_to_glicko2 o.1 o.2.1).2, o.2.2))
  match compute_variance mu opponents_g2 with
  | none =>
    -- `if not opponents_g2 or v == float('inf')`: return unchanged
    some ((glicko2_to_rating mu phi).1, (glicko2_to_rating mu phi).2, volatility)
  | some v =>
    let delta := compute_delta mu opponents_g2 v
    (update_volatility fuel volatility phi v delta).map fun new_sigma =>
      let phi_star := Real.sqrt (phi * phi + new_sigma * new_sigma)
      let new_phi := 1 / Real.sqrt (1 / (phi_star * phi_star) + 1 / v)
      let total := (opponents_g2.map (fun o =>
        g o.2.1 * (o.2.2 - expected_score mu o.1 o.2.1))).sum
      let new_mu := mu + new_phi * new_phi * total
      ((glicko2_to_rating new_mu new_phi).1,
        min (max (glicko2_to_rating new_mu new_phi).2 30) 350, new_sigma)

/-- Source `conservative_rating(rating, rd) = int(rating - 2*rd)`.  Python's `int()`
truncates toward zero: floor for non-negative arguments, ceiling for
negative ones. -/
noncomputable def conservative_rating (rating rd : ℝ) : ℤ :=
  if 0 ≤ rating - 2 * rd then ⌊rating - 2 * rd⌋ else ⌈rating - 2 * rd⌉

/-! ## Basic lemmas about the glicko2 core -/

lemma SCALE_ne_zero : SCALE ≠ 0 := by
  unfold SCALE; norm_num

/-- Round trip of the scale converter is the identity (shared helper). -/
lemma scale_roundtrip (rating rd : ℝ) :
    glicko2_to_rating (rating_to_glicko2 rating rd).1 (rating_to_glicko2 rating rd).2 =
      (rating, rd) := by
  have h := SCALE_ne_zero
  simp only [rating_to_glicko2, glicko2_to_rating]
  rw [Prod.mk.injEq]
  constructor
  · field_simp
  · field_simp

/-- With no opponents, `update_rating` returns its inputs (shared helper). -/
lemma update_rating_nil (fuel : ℕ) (rating rd volatility : ℝ) :
    update_rating fuel rating rd volatility [] = some (rating, rd, volatility) := by
  unfold update_rating compute_variance
  simp only [List.map_nil]
  have h := scale_roundtrip rating rd
  rw [Prod.ext_iff] at h
  simp_all


/-! ## ratings.py -/

/-- Constant `DEFAULT_RATING = 1500.0`. -/
noncomputable def DEFAULT_RATING : ℝ := 1500.0

/-- Constant `DEFAULT_RD = 350.0`. -/
noncomputable def DEFAULT_RD : ℝ := 350.0

/-- Constant `DEFAULT_VOLATILITY = 0.06`. -/
noncomputable def DEFAULT_VOLATILITY : ℝ := 0.06

/-- Constant `RD_DECAY_PER_DAY = 15`. -/
noncomputable def RD_DECAY_PER_DAY : ℝ := 15

/-- Constant `MAX_RD = 350.0`. -/
noncomputable def MAX_RD : ℝ := 350.0

/-- Source `decay_rd(rd, last_played_at, now)`: RD time decay.  `last_played_at` is
`none` for a player who never played (SQL NULL); timestamps are reals
measured in seconds, so `days = (now - last_played_at)/86400`. -/
noncomputable def decay_rd (rd : ℝ) (last_played_at : Option ℝ) (now : ℝ) : ℝ :=
  match last_played_at with
  | none => MAX_RD
  | some t =>
    let days := (now - t) / 86400
    if days ≤ 0 then rd
    else min (Real.sqrt (rd * rd + RD_DECAY_PER_DAY * RD_DECAY_PER_DAY * days)) MAX_RD

/-- A row of the `player_ratings` table. -/
structure PlayerRatingRec where
  rating : ℝ
  rd : ℝ
  volatility : ℝ
  last_played_at : Option ℝ

/-- A row of the `rating_history` table. -/
structure HistoryRec where
  rating : ℝ
  rd : ℝ
  conservative : ℤ

/-- A row of the `scores` table (fields used by the rating engine). -/
structure ScoreRow where
  tenant : ℕ
  player : ℕ
  round : ℕ
  score : ℤ
  created_at : ℤ

/-- The SQLite database state visible to the rating engine. -/
structure DB where
  ratings : ℕ → ℕ → Option PlayerRatingRec
  history : ℕ → ℕ → ℕ → Option HistoryRec
  scores : List ScoreRow

/-- Source `get_or_create_rating(conn, tenant_id, player)`: returns the stored row,
or inserts and returns the default row (`last_played_at` NULL). -/
noncomputable def get_or_create_rating (db : DB) (tenant player : ℕ) :
    PlayerRatingRec × DB :=
  match db.ratings tenant player with
  | some row => (row, db)
  | none =>
    let row : PlayerRatingRec :=
      ⟨DEFAULT_RATING, DEFAULT_RD, DEFAULT_VOLATILITY, none⟩
    (row, { db with ratings := fun t p =>
        if t = tenant ∧ p = player then some row else db.ratings t p })

/-- The per-opponent result computed inside `calculate_match_results`:
1.0 for a win (lower score), 0.5 for a draw, 0.0 for a loss. -/
noncomputable def match_result (player_score opponent_score : ℤ) : ℝ :=
  if player_score < opponent_score then 1.0
  else if player_score = opponent_score then 0.5
  else 0.0

/-- Source `calculate_match_results(player_score, opponent_scores)`. -/
noncomputable def calculate_match_results (player_score : ℤ)
    (opponent_scores : List (ℕ × ℤ)) : List (ℕ × ℝ) :=
  opponent_scores.map fun o => (o.1, match_result player_score o.2)

/-- Source `get_round_scores(conn, tenant_id, round_num, exclude_player)`. -/
def get_round_scores (db : DB) (tenant round : ℕ) (exclude_player : Option ℕ) :
    List (ℕ × ℤ) :=
  db.scores.filterMap fun s =>
    if s.tenant = tenant ∧ s.round = round ∧ exclude_player ≠ some s.player then
      some (s.player, s.score)
    else none

/-- Source `save_rating(conn, tenant_id, player, rating, rd, volatility, last_played_at)`:
`INSERT OR REPLACE` into `player_ratings`. -/
def save_rating (db : DB) (tenant player : ℕ) (rating rd volatility : ℝ)
    (last_played_at : Option ℝ) : DB :=
  { db with ratings := fun t p =>
      if t = tenant ∧ p = player then some ⟨rating, rd, volatility, last_played_at⟩
      else db.ratings t p }

/-- Source `save_rating_history(conn, tenant_id, player, round_num, rating, rd)`:
`INSERT OR REPLACE` into `rating_history`; the stored `conservative_rating`
column is computed as `conservative_rating(rating, rd)`. -/
noncomputable def save_rating_history (db : DB) (tenant player round : ℕ)
    (rating rd : ℝ) : DB :=
  { db with history := fun t p r =>
      if t = tenant ∧ p = player ∧ r = round then
        some ⟨rating, rd, conservative_rating rating rd⟩
      else db.history t p r }

/-- The dict returned by `update_player_rating` /
`update_ratings_for_round`. -/
structure UpdateResult where
  rating : ℝ
  rd : ℝ
  volatility : ℝ
  conservativeRating : ℤ

/-- The body of the opponent-building `for` loop in `update_player_rating`:
fetch/create the opponent, decay its deviation transiently, and append the
`(rating, decayed_rd, result)` triple. -/
noncomputable def build_opponents_step (tenant : ℕ) (now : ℝ)
    (acc : List (ℝ × ℝ × ℝ) × DB) (mr : ℕ × ℝ) : List (ℝ × ℝ × ℝ) × DB :=
  let opp := (get_or_create_rating acc.2 tenant mr.1).1
  let db' := (get_or_create_rating acc.2 tenant mr.1).2
  let opp_decayed_rd := decay_rd opp.rd opp.last_played_at now
  (acc.1 ++ [(opp.rating, opp_decayed_rd, mr.2)], db')

/-- Source `update_player_rating(conn, tenant_id, player, round_num, player_score, now)`:
update the submitting player.  `none` propagates volatility-solver
non-termination. -/
noncomputable def update_player_rating (fuel : ℕ) (db : DB)
    (tenant player round : ℕ) (player_score : ℤ) (now : ℝ) :
    Option (UpdateResult × DB) :=
  let pr := (get_or_create_rating db tenant player).1
  let db1 := (get_or_create_rating db tenant player).2
  let decayed_rd := decay_rd pr.rd pr.last_played_at now
  let opponent_scores := get_round_scores db1 tenant round (some player)
  match opponent_scores with
  | [] =>
    let db2 := save_rating db1 tenant player pr.rating decayed_rd pr.volatility (some now)
    let db3 := save_rating_history db2 tenant player round pr.rating decayed_rd
    some (⟨pr.rating, decayed_rd, pr.volatility,
      conservative_rating pr.rating decayed_rd⟩, db3)
  | _ :: _ =>
    let match_results := calculate_match_results player_score opponent_scores
    let opponents := (match_results.foldl (build_opponents_step tenant now) ([], db1)).1
    let db2 := (match_results.foldl (build_opponents_step tenant now) ([], db1)).2
    (update_rating fuel pr.rating decayed_rd pr.volatility opponents).map
      fun new_st =>
        let db3 := save_rating db2 tenant player new_st.1 new_st.2.1 new_st.2.2 (some now)
        let db4 := save_rating_history db3 tenant player round new_st.1 new_st.2.1
        (⟨new_st.1, new_st.2.1, new_st.2.2,
          conservative_rating new_st.1 new_st.2.1⟩, db4)

/-- The result derived from the opponent's perspective inside
`update_opponent_ratings`: 1.0 if the opponent scored lower, 0.5 on a tie,
0.0 otherwise. -/
noncomputable def opponent_result (opponent_score new_player_score : ℤ) : ℝ :=
  if opponent_score < new_player_score then 1.0
  else if opponent_score = new_player_score then 0.5
  else 0.0

/-- The body of the `for` loop in `update_opponent_ratings`, iterated over
the already-recorded round-mates. -/
noncomputable def retro_loop (fuel : ℕ) (tenant new_player : ℕ)
    (new_player_score : ℤ) (round : ℕ) (now : ℝ) :
    DB → List (ℕ × ℤ) → Option DB
  | db, [] => some db
  | db, (opponent_name, opponent_score) :: rest =>
    let result := opponent_result opponent_score new_player_score
    let opp := (get_or_create_rating db tenant opponent_name).1
    let db1 := (get_or_create_rating db tenant opponent_name).2
    let opp_decayed_rd := decay_rd opp.rd opp.last_played_at now
    let npr := (get_or_create_rating db1 tenant new_player).1
    let db2 := (get_or_create_rating db1 tenant new_player).2
    (update_rating fuel opp.rating opp_decayed_rd opp.volatility
        [(npr.rating, npr.rd, result)]).bind fun new_st =>
      let db3 := save_rating db2 tenant opponent_name new_st.1 new_st.2.1 new_st.2.2
        opp.last_played_at
      let db4 := save_rating_history db3 tenant opponent_name round new_st.1 new_st.2.1
      retro_loop fuel tenant new_player new_player_score round now db4 rest

/-- Source `update_opponent_ratings(conn, tenant_id, new_player, round_num,
new_player_score, now)`: retroactive pass over the round-mates. -/
noncomputable def update_opponent_ratings (fuel : ℕ) (db : DB)
    (tenant new_player round : ℕ) (new_player_score : ℤ) (now : ℝ) : Option DB :=
  let opponent_scores := get_round_scores db tenant round (some new_player)
  retro_loop fuel tenant new_player new_player_score round now db opponent_scores

/-- Source `update_ratings_for_round(conn, tenant_id, player, round_num, score, now)`:
the round orchestrator. -/
noncomputable def update_ratings_for_round (fuel : ℕ) (db : DB)
    (tenant player round : ℕ) (score : ℤ) (now : ℝ) :
    Option (UpdateResult × DB) :=
  (update_player_rating fuel db tenant player round score now).bind fun pd =>
    (update_opponent_ratings fuel pd.2 tenant player round score now).map fun db2 =>
      (pd.1, db2)

/-! ## recalculate.py -/

/-- Source `clear_ratings(conn)`: `DELETE FROM rating_history; DELETE FROM player_ratings`. -/
def clear_ratings (db : DB) : DB :=
  { db with ratings := fun _ _ => none, history := fun _ _ _ => none }

/-- The `ORDER BY round ASC, created_at ASC` comparison of `get_all_scores`. -/
def score_le (s1 s2 : ScoreRow) : Prop :=
  s1.round < s2.round ∨ (s1.round = s2.round ∧ s1.created_at ≤ s2.created_at)

instance (s1 s2 : ScoreRow) : Decidable (score_le s1 s2) := by
  unfold score_le; infer_instance

/-- Stable insertion of a score row behind all rows that sort no later
(models a stable `ORDER BY round ASC, created_at ASC`). -/
def insert_ordered (s : ScoreRow) : List ScoreRow → List ScoreRow
  | [] => [s]
  | t :: rest =>
    if score_le t s then t :: insert_ordered s rest else s :: t :: rest

/-- Source `get_all_scores(conn)`: all score rows ordered by
`round ASC, created_at ASC` (stable). -/
def get_all_scores (db : DB) : List ScoreRow :=
  db.scores.foldl (fun acc s => insert_ordered s acc) []

/-- The replay loop of `recalculate_ratings`.  The source calls
`update_ratings_for_round` without a `now` argument, so each call reads the
ambient wall clock `datetime.now()`; the list `nows` supplies the clock
value observed by each successive call. -/
noncomputable def replay_loop (fuel : ℕ) : DB → List ScoreRow → List ℝ → Option DB
  | db, [], _ => some db
  | db, s :: rest, now :: nows =>
    (update_ratings_for_round fuel db s.tenant s.player s.round s.score now).bind
      fun pd => replay_loop fuel pd.2 rest nows
  | _, _ :: _, [] => none

/-- Source `recalculate_ratings(db_path)`: clear all rating state, then replay every
score in chronological order.  `nows` is the sequence of ambient
`datetime.now()` readings taken by the successive orchestrator calls. -/
noncomputable def recalculate_ratings (fuel : ℕ) (db : DB) (nows : List ℝ) :
    Option DB :=
  replay_loop fuel (clear_ratings db) (get_all_scores db) nows

/-- The `last_played_at` column stored for `(tenant, player)`; `none` both
for a missing row and for a stored SQL NULL. -/
def stored_last_played_at (db : DB) (tenant player : ℕ) : Option ℝ :=
  match db.ratings tenant player with
  | some row => row.last_played_at
  | none => none


/-! ## Claim theorems -/

/-- C10: scale-converter round trip.  For every public `(rating, rd)`,
converting to the internal zero-centered scale and back is the identity. -/
theorem C10_scale_roundtrip_id (rating rd : ℝ) :
    glicko2_to_rating (rating_to_glicko2 rating rd).1 (rating_to_glicko2 rating rd).2 =
      (rating, rd) :=
  scale_roundtrip rating rd

/-- C4: for every `(rating, deviation, volatility)` and the empty opponent
list, `update_rating` returns the rating, deviation and volatility
unchanged. -/
theorem C4_update_rating_empty_unchanged (fuel : ℕ) (rating rd volatility : ℝ) :
    update_rating fuel rating rd volatility [] = some (rating, rd, volatility) :=
  update_rating_nil fuel rating rd volatility

/-- C7: for all raw scores `a`, `b`, the outcome of `a` versus `b` and of
`b` versus `a` are exact complements: the submitter's numeric result from
`calculate_match_results` and the result `update_opponent_ratings` derives
for the round-mate always sum to 1. -/
theorem C7_outcomes_complementary (a b : ℤ) :
    match_result a b + match_result b a = 1 ∧
      match_result a b + opponent_result b a = 1 := by
  have hor : opponent_result b a = match_result b a := rfl
  rw [hor, and_self]
  rcases lt_trichotomy a b with h | h | h
  · rw [match_result, match_result, if_pos h, if_neg (not_lt.mpr h.le),
      if_neg (Ne.symm (ne_of_lt h))]
    norm_num
  · subst h
    rw [match_result, if_neg (lt_irrefl a), if_pos rfl]
    norm_num
  · rw [match_result, match_result, if_neg (not_lt.mpr h.le),
      if_neg (ne_of_gt h), if_pos h]
    norm_num

/-- C8: `decay_rd` returns 350 when `last_played_at` is absent; returns `rd`
unchanged when the elapsed time is `≤ 0`; otherwise returns
`min(sqrt(rd^2 + 15^2 * days), 350)` with `days` the elapsed time in days. -/
theorem C8_decay_rd_spec (rd t now : ℝ) :
    decay_rd rd none now = 350 ∧
      (now - t ≤ 0 → decay_rd rd (some t) now = rd) ∧
      (0 < now - t →
        decay_rd rd (some t) now =
          min (Real.sqrt (rd ^ 2 + 15 ^ 2 * ((now - t) / 86400))) 350) := by
  refine ⟨by rw [decay_rd, MAX_RD]; norm_num, ?_, ?_⟩
  · intro h
    have hd : (now - t) / 86400 ≤ 0 := by
      rw [div_nonpos_iff]; right; exact ⟨h, by norm_num⟩
    rw [decay_rd]
    simp only [if_pos hd]
  · intro h
    have hd : 0 < (now - t) / 86400 := by positivity
    rw [decay_rd]
    simp only [if_neg (not_le.mpr hd)]
    have harg : rd * rd + RD_DECAY_PER_DAY * RD_DECAY_PER_DAY * ((now - t) / 86400) =
        rd ^ 2 + 15 ^ 2 * ((now - t) / 86400) := by
      rw [RD_DECAY_PER_DAY]; ring
    rw [harg, MAX_RD]
    norm_num

/-- C8 witness: the three branches of `C8_decay_rd_spec` at concrete inputs. -/
theorem C8_decay_rd_spec_witness :
    decay_rd 200 none 7 = 350 ∧
      ((5 : ℝ) - 5 ≤ 0 ∧ decay_rd 200 (some 5) 5 = 200) ∧
      (0 < (86400 : ℝ) - 0 ∧
        decay_rd 100 (some 0) 86400 =
          min (Real.sqrt (100 ^ 2 + 15 ^ 2 * (((86400 : ℝ) - 0) / 86400))) 350) :=
  ⟨(C8_decay_rd_spec 200 5 7).1,
    ⟨by norm_num, (C8_decay_rd_spec 200 5 5).2.1 (by norm_num)⟩,
    ⟨by norm_num, (C8_decay_rd_spec 100 0 86400).2.2 (by norm_num)⟩⟩

/-- C3 counterexample: `conservative_rating` is Python `int()`, which
truncates toward zero, so at `rating = 0`, `rd = 1/4` (where
`rating - 2*rd = -1/2`) it returns `0`, not `⌊-1/2⌋ = -1`. -/
theorem C3_counterexample_trunc_ne_floor :
    conservative_rating 0 (1 / 4) ≠ ⌊(0 : ℝ) - 2 * (1 / 4)⌋ := by
  have hneg : ¬ (0 : ℝ) ≤ 0 - 2 * (1 / 4) := by norm_num
  rw [conservative_rating, if_neg hneg]
  have hc : ⌈(0 : ℝ) - 2 * (1 / 4)⌉ = 0 := by
    rw [show (0 : ℝ) - 2 * (1 / 4) = -(1 / 2) by norm_num]
    rw [Int.ceil_eq_iff]
    norm_num
  have hf : ⌊(0 : ℝ) - 2 * (1 / 4)⌋ = -1 := by
    rw [show (0 : ℝ) - 2 * (1 / 4) = -(1 / 2) by norm_num]
    rw [Int.floor_eq_iff]
    norm_num
  rw [hc, hf]
  norm_num

/-- C5 counterexample: with the empty opponent list `update_rating` returns
the input deviation unchanged and unclamped, so an input deviation of 400
yields an output deviation of 400, outside `[30, 350]`. -/
theorem C5_counterexample_unclamped_empty :
    update_rating 0 1500 400 0.06 [] = some (1500, 400, 0.06) ∧
      ¬ ((400 : ℝ) ≤ 350) :=
  ⟨update_rating_nil 0 1500 400 0.06, by norm_num⟩


/-- Whatever the Illinois iteration returns is `exp(A/2)` for some `A`,
hence positive. -/
lemma illinois_pos (F : ℝ → ℝ) :
    ∀ (fuel : ℕ) (A B fA fB s : ℝ), illinois F fuel A B fA fB = some s → 0 < s := by
  intro fuel
  induction fuel with
  | zero => intro A B fA fB s h; simp [illinois] at h
  | succ n ih =>
    intro A B fA fB s h
    rw [illinois] at h
    by_cases h1 : |B - A| ≤ EPSILON
    · rw [if_pos h1] at h
      rcases Option.some.inj h with rfl
      exact Real.exp_pos _
    · rw [if_neg h1] at h
      dsimp only at h
      by_cases h2 :
          F (A + (A - B) * fA / (fB - fA)) * fB ≤ 0
      · rw [if_pos h2] at h
        exact ih _ _ _ _ _ h
      · rw [if_neg h2] at h
        exact ih _ _ _ _ _ h

/-- A successfully returned new volatility is positive. -/
lemma update_volatility_pos (fuel : ℕ) (sigma phi v delta s : ℝ)
    (h : update_volatility fuel sigma phi v delta = some s) : 0 < s := by
  rw [update_volatility] at h
  simp only [Option.bind_eq_some] at h
  obtain ⟨B, _, hB⟩ := h
  exact illinois_pos _ _ _ _ _ _ _ hB

/-- C5 amended: after any `update_rating` call that returns a result, if the
input deviation lies in `[30, 350]` and the input volatility is positive,
then the returned deviation lies in `[30, 350]` and the returned volatility
is positive.  (The input hypotheses are needed only for the
zero-opponent path, which returns its inputs unchanged and unclamped; see
the counterexample.) -/
theorem C5_amended_deviation_volatility_bounds (fuel : ℕ)
    (rating rd volatility : ℝ) (opponents : List (ℝ × ℝ × ℝ)) (out : ℝ × ℝ × ℝ)
    (h30 : 30 ≤ rd) (h350 : rd ≤ 350) (hvol : 0 < volatility)
    (h : update_rating fuel rating rd volatility opponents = some out) :
    30 ≤ out.2.1 ∧ out.2.1 ≤ 350 ∧ 0 < out.2.2 := by
  rw [update_rating] at h
  cases hcv : compute_variance ((rating_to_glicko2 rating rd).1)
      (opponents.map fun o =>
        ((rating_to_glicko2 o.1 o.2.1).1, (rating_to_glicko2 o.1 o.2.1).2, o.2.2)) with
  | none =>
    rw [hcv] at h
    simp only at h
    rcases Option.some.inj h with rfl
    have hr := scale_roundtrip rating rd
    rw [Prod.ext_iff] at hr
    simp only [hr.1, hr.2]
    exact ⟨h30, h350, hvol⟩
  | some v =>
    rw [hcv] at h
    simp only [Option.map_eq_some'] at h
    obtain ⟨sigma', hs, rfl⟩ := h
    refine ⟨?_, ?_, update_volatility_pos _ _ _ _ _ _ hs⟩
    · exact le_min (le_max_right _ _) (by norm_num)
    · exact min_le_right _ _

/-- C5 witness: `C5_amended_deviation_volatility_bounds` applied to the
empty-opponent update of a valid state. -/
theorem C5_amended_deviation_volatility_bounds_witness :
    (30 : ℝ) ≤ 350 ∧ (0 : ℝ) < 0.06 ∧
      (30 ≤ ((1500 : ℝ), (350 : ℝ), (0.06 : ℝ)).2.1 ∧
        ((1500 : ℝ), (350 : ℝ), (0.06 : ℝ)).2.1 ≤ 350 ∧
        0 < ((1500 : ℝ), (350 : ℝ), (0.06 : ℝ)).2.2) :=
  ⟨by norm_num, by norm_num,
    C5_amended_deviation_volatility_bounds 0 1500 350 0.06 [] _
      (by norm_num) (le_refl _) (by norm_num)
      (update_rating_nil 0 1500 350 0.06)⟩


/-! ## The bracket search of the volatility solver (claim C6) -/

/-- Far enough to the left (and once `k` is large enough for the linear term
`k/TAU` to dominate), the solver objective is non-negative. -/
lemma vol_f_nonneg_of_far (a delta_sq phi_sq v : ℝ) (hds : 0 ≤ delta_sq)
    (hD : 0 < phi_sq + v) (k : ℝ) (hk0 : 0 ≤ k)
    (hx : a - k * TAU ≤ 0)
    (hkM : delta_sq + (phi_sq + v) + 1 ≤ 2 * k * (2 * (phi_sq + v) ^ 2)) :
    0 ≤ vol_f a delta_sq phi_sq v (a - k * TAU) := by
  have hE0 : 0 < Real.exp (a - k * TAU) := Real.exp_pos _
  have hE1 : Real.exp (a - k * TAU) ≤ 1 := Real.exp_le_one_iff.mpr hx
  rw [vol_f]
  have hTT : (a - k * TAU - a) / (TAU * TAU) = -(2 * k) := by
    rw [TAU]; ring
  rw [hTT, sub_neg_eq_add]
  set D := phi_sq + v with hDdef
  set E := Real.exp (a - k * TAU) with hEdef
  have hden : (0 : ℝ) < 2 * (D + E) ^ 2 := by positivity
  rw [div_add' _ _ _ (ne_of_gt hden)]
  apply div_nonneg _ (le_of_lt hden)
  have h1 : -(delta_sq + D + 1) ≤ E * (delta_sq - D - E) := by
    nlinarith [mul_nonneg (sub_nonneg.mpr hE1) hD.le,
      mul_nonneg (sub_nonneg.mpr hE1) (by linarith : (0 : ℝ) ≤ 1 + E),
      mul_nonneg hE0.le hds]
  have h3 : D ^ 2 ≤ (D + E) ^ 2 := by nlinarith [hE0, hD]
  have h4 : 2 * k * (2 * D ^ 2) ≤ 2 * k * (2 * (D + E) ^ 2) := by nlinarith [hk0, h3]
  have hgoal : delta_sq - phi_sq - v - E = delta_sq - D - E := by rw [hDdef]; ring
  rw [hgoal]
  linarith [h1, hkM, h4]

/-- Fuel lemma for the bracket search: if the objective is non-negative at
index `k + n` then the search started at `k` with `n + 1` fuel exits, and
it exits at a point where the objective is non-negative. -/
lemma bracket_search_reaches (F : ℝ → ℝ) (a : ℝ) :
    ∀ (n k : ℕ), 0 ≤ F (a - ((k + n : ℕ) : ℝ) * TAU) →
      ∃ B, bracket_search F a (n + 1) k = some B ∧ 0 ≤ F B := by
  intro n
  induction n with
  | zero =>
    intro k h
    rw [Nat.add_zero] at h
    rw [bracket_search, if_neg (not_lt.mpr h)]
    exact ⟨_, rfl, h⟩
  | succ n ih =>
    intro k h
    rw [bracket_search]
    by_cases hk : F (a - (k : ℝ) * TAU) < 0
    · rw [if_pos hk]
      have h' : 0 ≤ F (a - ((k + 1 + n : ℕ) : ℝ) * TAU) := by
        have he : (k + 1 + n : ℕ) = (k + (n + 1) : ℕ) := by omega
        rw [he]; exact h
      exact ih (k + 1) h'
    · rw [if_neg hk]
      exact ⟨_, rfl, not_lt.mp hk⟩

/-- C6 counterexample: at solver input `(sigma, phi, v, delta) = (1, 1, 1, 0)`
(which satisfies `delta^2 <= phi^2 + v`, so the decrement search runs), the
search exits at its very first index with `f(B) >= 0` — the code's loop
`while f(a - k*TAU) < 0` runs *until* `f(B) >= 0`, not until `f(B) < 0` as
the claim states. -/
theorem C6_counterexample_exit_sign :
    (0 : ℝ) * 0 ≤ 1 * 1 + 1 ∧
      bracket_search (vol_f (Real.log (1 * 1)) (0 * 0) (1 * 1) 1)
          (Real.log (1 * 1)) 1 1 =
        some (Real.log (1 * 1) - ((1 : ℕ) : ℝ) * TAU) ∧
      ¬ vol_f (Real.log (1 * 1)) (0 * 0) (1 * 1) 1
          (Real.log (1 * 1) - ((1 : ℕ) : ℝ) * TAU) < 0 := by
  have ha : Real.log (1 * 1) = 0 := by norm_num [Real.log_one]
  have harg : Real.log (1 * 1) - ((1 : ℕ) : ℝ) * TAU = -(1 / 2) := by
    rw [ha, TAU]; push_cast; norm_num
  have hsign : 0 < vol_f (Real.log (1 * 1)) (0 * 0) (1 * 1) 1 (-(1 / 2)) := by
    rw [vol_f, ha]
    have hTT : ((-(1 / 2) : ℝ) - 0) / (TAU * TAU) = -2 := by rw [TAU]; norm_num
    rw [hTT, sub_neg_eq_add]
    set t := Real.exp (-(1 / 2) : ℝ) with ht
    have ht0 : 0 < t := Real.exp_pos _
    have ht1 : t < 1 := by rw [ht]; exact Real.exp_lt_one_iff.mpr (by norm_num)
    have habs : -(1 : ℝ) < t * (0 * 0 - 1 * 1 - 1 - t) / (2 * (1 * 1 + 1 + t) ^ 2) := by
      rw [show (t * (0 * 0 - 1 * 1 - 1 - t) : ℝ) = -(t * (2 + t)) by ring,
        show (2 * ((1 * 1 + 1 + t) ^ 2) : ℝ) = 2 * (2 + t) ^ 2 by ring,
        neg_div, neg_lt_neg_iff, div_lt_one (by positivity)]
      nlinarith [ht0, ht1]
    linarith [habs]
  have hsign' : 0 ≤ vol_f (Real.log (1 * 1)) (0 * 0) (1 * 1) 1
      (Real.log (1 * 1) - ((1 : ℕ) : ℝ) * TAU) := by
    rw [harg]; exact le_of_lt hsign
  refine ⟨by norm_num, ?_, not_lt.mpr hsign'⟩
  have hbs : bracket_search (vol_f (Real.log (1 * 1)) (0 * 0) (1 * 1) 1)
      (Real.log (1 * 1)) 1 1 =
      if vol_f (Real.log (1 * 1)) (0 * 0) (1 * 1) 1
          (Real.log (1 * 1) - ((1 : ℕ) : ℝ) * TAU) < 0 then
        bracket_search (vol_f (Real.log (1 * 1)) (0 * 0) (1 * 1) 1)
          (Real.log (1 * 1)) 0 2
      else some (Real.log (1 * 1) - ((1 : ℕ) : ℝ) * TAU) := rfl
  rw [hbs, if_neg (not_lt.mpr hsign')]

/-- C6 amended: in the bracket-selection branch, `B` is found by
decrementing `B = a - k*TAU` for increasing integer `k` until
`f(B) >= 0` (not `< 0` as written in the claim), and for every valid input
(positive variance) this decrement search terminates. -/
theorem C6_amended_bracket_terminates (sigma phi v delta : ℝ) (hv : 0 < v) :
    ∃ (fuel : ℕ) (B : ℝ),
      bracket_search (vol_f (Real.log (sigma * sigma)) (delta * delta) (phi * phi) v)
          (Real.log (sigma * sigma)) fuel 1 = some B ∧
        0 ≤ vol_f (Real.log (sigma * sigma)) (delta * delta) (phi * phi) v B := by
  set a := Real.log (sigma * sigma) with hadef
  have hds : 0 ≤ delta * delta := mul_self_nonneg delta
  have hD : 0 < phi * phi + v := add_pos_of_nonneg_of_pos (mul_self_nonneg phi) hv
  obtain ⟨K, hK⟩ := exists_nat_gt
    (max (2 * a) ((delta * delta + (phi * phi + v) + 1) / (4 * (phi * phi + v) ^ 2)))
  have hKa : 2 * a < (K : ℝ) := lt_of_le_of_lt (le_max_left _ _) hK
  have hKM : (delta * delta + (phi * phi + v) + 1) / (4 * (phi * phi + v) ^ 2) < (K : ℝ) :=
    lt_of_le_of_lt (le_max_right _ _) hK
  have hfar : 0 ≤ vol_f a (delta * delta) (phi * phi) v
      (a - (((1 + K : ℕ) : ℝ)) * TAU) := by
    apply vol_f_nonneg_of_far _ _ _ _ hds hD _ (by positivity)
    · rw [TAU]; push_cast; nlinarith [hKa]
    · have h4 : (0 : ℝ) < 4 * (phi * phi + v) ^ 2 := by positivity
      rw [div_lt_iff₀ h4] at hKM
      push_cast
      nlinarith [hKM, sq_nonneg (phi * phi + v)]
  obtain ⟨B, hB, hFB⟩ := bracket_search_reaches
    (vol_f a (delta * delta) (phi * phi) v) a K 1 hfar
  exact ⟨K + 1, B, hB, hFB⟩

/-- C6 witness: `C6_amended_bracket_terminates` at
`(sigma, phi, v, delta) = (1, 1, 1, 0)`. -/
theorem C6_amended_bracket_terminates_witness :
    (0 : ℝ) < 1 ∧
      ∃ (fuel : ℕ) (B : ℝ),
        bracket_search (vol_f (Real.log (1 * 1)) (0 * 0) (1 * 1) 1)
            (Real.log (1 * 1)) fuel 1 = some B ∧
          0 ≤ vol_f (Real.log (1 * 1)) (0 * 0) (1 * 1) 1 B :=
  ⟨by norm_num, C6_amended_bracket_terminates 1 1 1 0 (by norm_num)⟩


/-! ## Frame lemmas for `last_played_at` (claim C9) -/

lemma stored_lpa_save_rating_history (db : DB) (tenant player round : ℕ)
    (rating rd : ℝ) (t p : ℕ) :
    stored_last_played_at (save_rating_history db tenant player round rating rd) t p =
      stored_last_played_at db t p := rfl

lemma stored_lpa_save_rating (db : DB) (tenant player : ℕ) (rating rd vol : ℝ)
    (last : Option ℝ) (t p : ℕ) :
    stored_last_played_at (save_rating db tenant player rating rd vol last) t p =
      if t = tenant ∧ p = player then last else stored_last_played_at db t p := by
  rw [stored_last_played_at, save_rating]
  dsimp only
  by_cases hc : t = tenant ∧ p = player
  · rw [if_pos hc, if_pos hc]
  · rw [if_neg hc, if_neg hc, stored_last_played_at]

lemma stored_lpa_get_or_create (db : DB) (tenant player t p : ℕ) :
    stored_last_played_at (get_or_create_rating db tenant player).2 t p =
      stored_last_played_at db t p := by
  rw [stored_last_played_at, stored_last_played_at, get_or_create_rating]
  cases hrow : db.ratings tenant player with
  | some row => rfl
  | none =>
    simp only
    by_cases hc : t = tenant ∧ p = player
    · rw [if_pos hc]
      rcases hc with ⟨rfl, rfl⟩
      rw [hrow]
    · rw [if_neg hc]

lemma fst_get_or_create_lpa (db : DB) (tenant player : ℕ) :
    ((get_or_create_rating db tenant player).1).last_played_at =
      stored_last_played_at db tenant player := by
  rw [stored_last_played_at, get_or_create_rating]
  cases hrow : db.ratings tenant player with
  | some row => rfl
  | none => rfl

lemma stored_lpa_build_opponents_fold (tenant : ℕ) (now : ℝ) :
    ∀ (mrs : List (ℕ × ℝ)) (acc : List (ℝ × ℝ × ℝ) × DB) (t p : ℕ),
      stored_last_played_at (mrs.foldl (build_opponents_step tenant now) acc).2 t p =
        stored_last_played_at acc.2 t p := by
  intro mrs
  induction mrs with
  | nil => intro acc t p; rfl
  | cons mr rest ih =>
    intro acc t p
    rw [List.foldl_cons, ih]
    rw [build_opponents_step]
    exact stored_lpa_get_or_create _ _ _ _ _

lemma stored_lpa_retro_loop (fuel : ℕ) (tenant new_player : ℕ)
    (new_player_score : ℤ) (round : ℕ) (now : ℝ) :
    ∀ (mates : List (ℕ × ℤ)) (db db' : DB),
      retro_loop fuel tenant new_player new_player_score round now db mates = some db' →
      ∀ t p, stored_last_played_at db' t p = stored_last_played_at db t p := by
  intro mates
  induction mates with
  | nil =>
    intro db db' h t p
    rw [retro_loop] at h
    rw [← Option.some.inj h]
  | cons mate rest ih =>
    intro db db' h t p
    rw [retro_loop] at h
    simp only [Option.bind_eq_some] at h
    obtain ⟨st, _, h⟩ := h
    rw [ih _ _ h t p, stored_lpa_save_rating_history, stored_lpa_save_rating]
    by_cases hc : t = tenant ∧ p = mate.1
    · rw [if_pos hc, fst_get_or_create_lpa]
      rcases hc with ⟨rfl, rfl⟩
      rfl
    · rw [if_neg hc, stored_lpa_get_or_create, stored_lpa_get_or_create]

lemma stored_lpa_update_opponent_ratings (fuel : ℕ) (db : DB)
    (tenant new_player round : ℕ) (new_player_score : ℤ) (now : ℝ) (db' : DB)
    (h : update_opponent_ratings fuel db tenant new_player round new_player_score now =
      some db') :
    ∀ t p, stored_last_played_at db' t p = stored_last_played_at db t p := by
  rw [update_opponent_ratings] at h
  exact stored_lpa_retro_loop fuel tenant new_player new_player_score round now _ _ _ h

lemma stored_lpa_update_player_rating (fuel : ℕ) (db : DB)
    (tenant player round : ℕ) (score : ℤ) (now : ℝ) (pd : UpdateResult × DB)
    (h : update_player_rating fuel db tenant player round score now = some pd) :
    stored_last_played_at pd.2 tenant player = some now ∧
      ∀ t p, ¬ (t = tenant ∧ p = player) →
        stored_last_played_at pd.2 t p = stored_last_played_at db t p := by
  rw [update_player_rating] at h
  simp only at h
  cases hos : get_round_scores (get_or_create_rating db tenant player).2 tenant round
      (some player) with
  | nil =>
    rw [hos] at h
    simp only at h
    obtain rfl := Option.some.inj h
    constructor
    · rw [stored_lpa_save_rating_history, stored_lpa_save_rating, if_pos ⟨rfl, rfl⟩]
    · intro t p hne
      rw [stored_lpa_save_rating_history, stored_lpa_save_rating, if_neg hne,
        stored_lpa_get_or_create]
  | cons head tail =>
    rw [hos] at h
    simp only [Option.map_eq_some'] at h
    obtain ⟨st, _, rfl⟩ := h
    constructor
    · rw [stored_lpa_save_rating_history, stored_lpa_save_rating, if_pos ⟨rfl, rfl⟩]
    · intro t p hne
      rw [stored_lpa_save_rating_history, stored_lpa_save_rating, if_neg hne,
        stored_lpa_build_opponents_fold, stored_lpa_get_or_create]

/-- C9: in every completed orchestrator run, the submitter's persisted
`lastPlayedAt` equals the run's `now`, and `lastPlayedAt` of every other
`(tenant, player)` key — in particular every retroactively updated
round-mate — is exactly what it was before the run. -/
theorem C9_lastPlayedAt_only_submitter (fuel : ℕ) (db : DB)
    (tenant player round : ℕ) (score : ℤ) (now : ℝ) (pd : UpdateResult × DB)
    (h : update_ratings_for_round fuel db tenant player round score now = some pd) :
    stored_last_played_at pd.2 tenant player = some now ∧
      ∀ t p, ¬ (t = tenant ∧ p = player) →
        stored_last_played_at pd.2 t p = stored_last_played_at db t p := by
  rw [update_ratings_for_round] at h
  simp only [Option.bind_eq_some, Option.map_eq_some'] at h
  obtain ⟨pd1, hpd1, db2, hdb2, rfl⟩ := h
  have hretro := stored_lpa_update_opponent_ratings fuel pd1.2 tenant player round
    score now db2 hdb2
  have hplayer := stored_lpa_update_player_rating fuel db tenant player round score
    now pd1 hpd1
  constructor
  · rw [hretro, hplayer.1]
  · intro t p hne
    rw [hretro, hplayer.2 t p hne]


/-- C9 witness: a completed run of the orchestrator on an empty database
(submitter tenant 0, player 1, round 2, score 3, now 7): the submitter's
`lastPlayedAt` becomes 7 and player 2's stays untouched. -/
theorem C9_lastPlayedAt_only_submitter_witness :
    (update_ratings_for_round 0 (⟨fun _ _ => none, fun _ _ _ => none, []⟩ : DB)
        0 1 2 3 7).map
        (fun pd => (stored_last_played_at pd.2 0 1, stored_last_played_at pd.2 0 2)) =
      some (some 7, none) := by
  obtain ⟨pd, hpd⟩ : ∃ pd, update_ratings_for_round 0
      (⟨fun _ _ => none, fun _ _ _ => none, []⟩ : DB) 0 1 2 3 7 = some pd := ⟨_, rfl⟩
  rw [hpd, Option.map_some']
  have h := C9_lastPlayedAt_only_submitter 0 _ 0 1 2 3 7 pd hpd
  rw [h.1, h.2 0 2 (by decide)]
  rfl

/-! ## History consistency (claim C3) -/

/-- Every persisted history row's `conservative_rating` column is the pure
function `conservative_rating` of its stored rating and deviation. -/
def history_consistent (db : DB) : Prop :=
  ∀ t p r e, db.history t p r = some e →
    e.conservative = conservative_rating e.rating e.rd

lemma history_consistent_save_rating (db : DB) (tenant player : ℕ)
    (rating rd vol : ℝ) (last : Option ℝ) (h : history_consistent db) :
    history_consistent (save_rating db tenant player rating rd vol last) := h

lemma history_consistent_save_rating_history (db : DB) (tenant player round : ℕ)
    (rating rd : ℝ) (h : history_consistent db) :
    history_consistent (save_rating_history db tenant player round rating rd) := by
  intro t p r e he
  rw [save_rating_history] at he
  dsimp only at he
  by_cases hc : t = tenant ∧ p = player ∧ r = round
  · rw [if_pos hc] at he
    obtain rfl := Option.some.inj he
    rfl
  · rw [if_neg hc] at he
    exact h t p r e he

lemma history_consistent_get_or_create (db : DB) (tenant player : ℕ)
    (h : history_consistent db) :
    history_consistent (get_or_create_rating db tenant player).2 := by
  intro t p r e he
  rw [get_or_create_rating] at he
  cases hrow : db.ratings tenant player with
  | some row => rw [hrow] at he; exact h t p r e he
  | none => rw [hrow] at he; exact h t p r e he

lemma history_consistent_build_opponents_fold (tenant : ℕ) (now : ℝ) :
    ∀ (mrs : List (ℕ × ℝ)) (acc : List (ℝ × ℝ × ℝ) × DB),
      history_consistent acc.2 →
      history_consistent (mrs.foldl (build_opponents_step tenant now) acc).2 := by
  intro mrs
  induction mrs with
  | nil => intro acc h; exact h
  | cons mr rest ih =>
    intro acc h
    rw [List.foldl_cons]
    exact ih _ (history_consistent_get_or_create _ _ _ h)

lemma history_consistent_retro_loop (fuel : ℕ) (tenant new_player : ℕ)
    (new_player_score : ℤ) (round : ℕ) (now : ℝ) :
    ∀ (mates : List (ℕ × ℤ)) (db db' : DB),
      history_consistent db →
      retro_loop fuel tenant new_player new_player_score round now db mates = some db' →
      history_consistent db' := by
  intro mates
  induction mates with
  | nil =>
    intro db db' h heq
    rw [retro_loop] at heq
    rw [← Option.some.inj heq]
    exact h
  | cons mate rest ih =>
    intro db db' h heq
    rw [retro_loop] at heq
    simp only [Option.bind_eq_some] at heq
    obtain ⟨st, _, heq⟩ := heq
    exact ih _ _ (history_consistent_save_rating_history _ _ _ _ _ _
      (history_consistent_save_rating _ _ _ _ _ _ _
        (history_consistent_get_or_create _ _ _
          (history_consistent_get_or_create _ _ _ h)))) heq

lemma history_consistent_update_player_rating (fuel : ℕ) (db : DB)
    (tenant player round : ℕ) (score : ℤ) (now : ℝ) (pd : UpdateResult × DB)
    (h : history_consistent db)
    (heq : update_player_rating fuel db tenant player round score now = some pd) :
    history_consistent pd.2 := by
  rw [update_player_rating] at heq
  simp only at heq
  cases hos : get_round_scores (get_or_create_rating db tenant player).2 tenant round
      (some player) with
  | nil =>
    rw [hos] at heq
    simp only at heq
    obtain rfl := Option.some.inj heq
    exact history_consistent_save_rating_history _ _ _ _ _ _
      (history_consistent_save_rating _ _ _ _ _ _ _
        (history_consistent_get_or_create _ _ _ h))
  | cons head tail =>
    rw [hos] at heq
    simp only [Option.map_eq_some'] at heq
    obtain ⟨st, _, rfl⟩ := heq
    exact history_consistent_save_rating_history _ _ _ _ _ _
      (history_consistent_save_rating _ _ _ _ _ _ _
        (history_consistent_build_opponents_fold _ _ _ _
          (history_consistent_get_or_create _ _ _ h)))

/-- C3 amended: `conservative_rating` is Python `int()` truncation toward
zero, which agrees with the mathematical floor exactly on the non-negative
range; and every history row persisted by a completed orchestrator run has
its `conservativeRating` equal to `conservative_rating` of its stored
rating and deviation (it is never an independent value). -/
theorem C3_amended_conservative_rating :
    (∀ rating rd : ℝ, 0 ≤ rating - 2 * rd →
        conservative_rating rating rd = ⌊rating - 2 * rd⌋) ∧
      ∀ (fuel : ℕ) (db : DB) (tenant player round : ℕ) (score : ℤ) (now : ℝ)
        (pd : UpdateResult × DB), history_consistent db →
        update_ratings_for_round fuel db tenant player round score now = some pd →
        history_consistent pd.2 := by
  constructor
  · intro rating rd h
    rw [conservative_rating, if_pos h]
  · intro fuel db tenant player round score now pd h heq
    rw [update_ratings_for_round] at heq
    simp only [Option.bind_eq_some, Option.map_eq_some'] at heq
    obtain ⟨pd1, hpd1, db2, hdb2, rfl⟩ := heq
    rw [update_opponent_ratings] at hdb2
    exact history_consistent_retro_loop fuel tenant player score round now _ _ _
      (history_consistent_update_player_rating fuel db tenant player round score
        now pd1 h hpd1) hdb2

/-- C3 witness: the floor agreement at `(1500, 350)` and the invariant on a
concrete completed run from an empty (hence trivially consistent) state. -/
theorem C3_amended_conservative_rating_witness :
    ((0 : ℝ) ≤ 1500 - 2 * 350 ∧
        conservative_rating 1500 350 = ⌊(1500 : ℝ) - 2 * 350⌋) ∧
      history_consistent ((update_ratings_for_round 0
          (⟨fun _ _ => none, fun _ _ _ => none, []⟩ : DB) 0 4 1 3 11).elim
        (⟨fun _ _ => none, fun _ _ _ => none, []⟩ : DB) (fun pd => pd.2)) := by
  have hempty : history_consistent (⟨fun _ _ => none, fun _ _ _ => none, []⟩ : DB) :=
    fun t p r e he => Option.noConfusion he
  obtain ⟨pd, hpd⟩ : ∃ pd, update_ratings_for_round 0
      (⟨fun _ _ => none, fun _ _ _ => none, []⟩ : DB) 0 4 1 3 11 = some pd := ⟨_, rfl⟩
  refine ⟨⟨by norm_num, C3_amended_conservative_rating.1 1500 350 (by norm_num)⟩, ?_⟩
  rw [hpd]
  exact C3_amended_conservative_rating.2 0 _ 0 4 1 3 11 pd hempty hpd

/-- C2: replay is not a function of the score log alone.  The replay driver
calls the orchestrator without a `now` argument, so each call reads the
ambient wall clock; replaying the same one-entry log under ambient clock 5
versus ambient clock 6 produces different final rating states (the stored
`lastPlayedAt` of the submitter differs). -/
theorem C2_replay_depends_on_wall_clock :
    recalculate_ratings 0
        ⟨fun _ _ => none, fun _ _ _ => none, [⟨0, 1, 1, 3, 0⟩]⟩ [5] ≠
      recalculate_ratings 0
        ⟨fun _ _ => none, fun _ _ _ => none, [⟨0, 1, 1, 3, 0⟩]⟩ [6] := by
  intro hcontra
  have h := congrArg (fun o => o.map fun d => stored_last_played_at d 0 1) hcontra
  have h2 : (some (some (5 : ℝ)) : Option (Option ℝ)) = some (some (6 : ℝ)) := h
  have h3 : (5 : ℝ) = 6 := by
    have := Option.some.inj (Option.some.inj h2)
    exact this
  norm_num at h3

end Tradle
